import Mathlib

/-!
Shallow embedding of `buildSrc/transupdate.py`, a utility that uploads English
resource files to a translation service and downloads translated resource
files back, tracking changes via MD5 content hashes persisted in JSON
checksum files.

Modelling conventions:
  * Python strings are `String` (character-for-character; the repository only
    handles ASCII paths, where Python 2 byte indexing and Lean character
    indexing agree).
  * The filesystem is a record `Fsys` of partial functions: directory
    listings (`os.listdir`), file contents as byte lists (`open` + `read`,
    `none` meaning the file does not exist), and text-file lines.
  * The persisted checksum JSON files form a separate `Store`: for each path,
    `none` means the file is absent, `some none` means it exists but is not a
    valid JSON object of strings, and `some (some m)` means it parses to the
    string-to-string object `m` (as an association list in file order).
  * MD5 is an abstract parameter `md5 : List Nat → String`; the Python code
    feeds the file to `hashlib.md5` in 8192-byte chunks, and feeding
    concatenated chunks equals feeding the whole stream, so hashing the full
    byte list is faithful.
  * Python exceptions are `Except PyErr`; `TransUpdateError` messages are
    kept, `IndexError` and `OSError`/`IOError` are bare constructors.
  * Network effects (Transifex uploads/downloads) do not touch the local
    state tracked here; only their failure preconditions (project existence)
    and the per-file format lookup are modelled.  `list_resources` output
    only selects update-vs-create on the remote side and is not modelled.
  * `fnmatch.fnmatch` is modelled for patterns built from literals, `*` and
    `?`; the resource specs this tool consumes use only `*`.  The foreign
    language regular expression `.*SEP(code1|...|coden)$` used by
    `_get_english_files` is embedded as "the stem ends with SEP ++ code for
    some code", which is its meaning for metacharacter-free separators and
    language codes (in this repository the separators are `_`/`-` and codes
    are alphanumeric with underscores) and newline-free file names.
-/

/-! ### Python string and path primitives -/

/-- Lexicographic comparison of character lists by code point, the order
Python 2 uses for byte strings (restricted to ASCII).  A kernel-reducible
replacement for `String.ltb`. -/
def charListLe : List Char → List Char → Bool
  | [], _ => true
  | _ :: _, [] => false
  | a :: as, b :: bs => if a = b then charListLe as bs else decide (a < b)

theorem charListLe_cons (a b : Char) (as bs : List Char) :
    charListLe (a :: as) (b :: bs) = if a = b then charListLe as bs else decide (a < b) := rfl

/-- `s <= t` as Python compares strings. -/
def strLe (s t : String) : Bool := charListLe s.toList t.toList

/-- `str.endswith` / the regular-expression suffix test, on characters. -/
def strEndsWith (s suffix : String) : Bool := suffix.toList.isSuffixOf s.toList

/-- `str.startswith`, on characters. -/
def strStartsWith (s pre : String) : Bool := pre.toList.isPrefixOf s.toList

/-- `os.path.split` (posixpath): split off everything after the final slash;
the head keeps a run of slashes only when it consists of nothing else. -/
def posixSplit (p : String) : String × String :=
  let l := p.toList
  let rtail := l.reverse.takeWhile (fun c => c ≠ '/')
  let tail := l.drop (l.length - rtail.length)
  let headRaw := l.take (l.length - rtail.length)
  let head := if headRaw.any (fun c => c ≠ '/') then
      (headRaw.reverse.dropWhile (fun c => c = '/')).reverse
    else headRaw
  (head.asString, tail.asString)

/-- Length of the extension (dot included) that `os.path.splitext` splits
off, computed on the reversed base name (the reversed path up to the first
slash from the right): the extension ends at the first `.` of the reversed
base, provided some non-dot character of the base precedes the dot in the
original string. -/
def splitExtLen (rbase : List Char) : Nat :=
  match rbase.dropWhile (fun c => c ≠ '.') with
  | [] => 0
  | _ :: rtail =>
    if rtail.any (fun c => c ≠ '.') then (rbase.takeWhile (fun c => c ≠ '.')).length + 1
    else 0

/-- `os.path.splitext` (posixpath): split off the extension after the last
dot of the base name; leading dots of the base never start an extension. -/
def splitext (p : String) : String × String :=
  let l := p.toList
  let n := splitExtLen (l.reverse.takeWhile (fun c => c ≠ '/'))
  ((l.take (l.length - n)).asString, (l.drop (l.length - n)).asString)

/-- `os.path.join` (posixpath) for two components, as used by the tool. -/
def pathJoin (a b : String) : String :=
  if strStartsWith b "/" then b
  else if a = "" || strEndsWith a "/" then a ++ b
  else a ++ "/" ++ b

/-- Replace the first `%s` of the template, which is what Python's
`template % arg` does on a template with a single placeholder (the only shape
of templated rule this tool supports). -/
def percentSList : List Char → List Char → List Char
  | [], _ => []
  | '%' :: 's' :: rest, arg => arg ++ rest
  | c :: rest, arg => c :: percentSList rest arg

/-- `template % arg` for a single `%s` placeholder. -/
def percentS (template arg : String) : String :=
  (percentSList template.toList arg.toList).asString

/-- Whether the character list contains the two-character token `%s`. -/
def hasPct : List Char → Bool
  | [] => false
  | '%' :: 's' :: _ => true
  | _ :: rest => hasPct rest

/-- Python's `"%s" in s`. -/
def containsPct (s : String) : Bool := hasPct s.toList

/-- `fnmatch.fnmatch` on characters, for patterns of literals, `*` and `?`
(character classes are not used by any resource spec of this repository).
A `*` matches any sequence of characters, so the rest of the pattern must
match some suffix of the name; the whole name must be consumed. -/
def fnmatchL : List Char → List Char → Bool
  | [], cs => cs.isEmpty
  | '*' :: ps, cs => (cs.tails).any (fun t => fnmatchL ps t)
  | '?' :: _, [] => false
  | '?' :: ps, _ :: cs => fnmatchL ps cs
  | _ :: _, [] => false
  | p :: ps, c :: cs => p == c && fnmatchL ps cs

/-- `fnmatch.fnmatch name pattern`. -/
def fnmatch (pattern name : String) : Bool := fnmatchL pattern.toList name.toList

/-- Python's `ext.split "."` (split on every dot, keeping empty pieces). -/
def pySplitDot : List Char → List (List Char)
  | [] => [[]]
  | c :: rest =>
    if c = '.' then [] :: pySplitDot rest
    else
      match pySplitDot rest with
      | [] => [[c]]
      | piece :: pieces => (c :: piece) :: pieces

/-- `line.rstrip "\n\r"`. -/
def rstripNL (s : String) : String :=
  ((s.toList.reverse.dropWhile (fun c => c = '\n' || c = '\r')).reverse).asString

/-- Assignment `d[k] = v` on a Python dict modelled as an association list:
replace the value when the key is present, append otherwise. -/
def dictInsert (m : List (String × String)) (k v : String) : List (String × String) :=
  if m.any (fun kv => kv.1 == k) then m.map (fun kv => if kv.1 == k then (k, v) else kv)
  else m ++ [(k, v)]

/-- Insert into a list sorted by a string key (`strLe`). -/
def insortBy {α : Type} (key : α → String) (x : α) : List α → List α
  | [] => [x]
  | y :: ys => if strLe (key x) (key y) then x :: y :: ys else y :: insortBy key x ys

/-- Sort by a string key; models Python's `list.sort()` on strings and
`json.dump(..., sort_keys=True)` (all key lists this tool sorts have
pairwise-distinct keys, so tie order is irrelevant). -/
def sortByKey {α : Type} (key : α → String) (l : List α) : List α :=
  l.foldr (insortBy key) []

/-! ### Data model -/

/-- One entry of the `langs` list of the resource spec: the Transifex code
and the optional native code (`null` in JSON). -/
structure LangEntry where
  txCode : String
  nativeCode : Option String
deriving DecidableEq

/-- One entry of the `resources` list: `[pathPattern, separator, marker]`,
where `marker` may be `null`. -/
structure ResRule where
  pattern : String
  sep : String
  marker : Option String
deriving DecidableEq

/-- The parsed repo localization info JSON. -/
structure ResSpec where
  resources : List ResRule
  langs : List LangEntry
deriving DecidableEq

/-- The local filesystem as seen by the tool. -/
structure Fsys where
  listdir : String → Option (List String)
  fileBytes : String → Option (List Nat)
  readLines : String → Option (List String)

/-- The checksum-file store: path to parsed JSON content (see module
docstring). -/
abbrev Store := String → Option (Option (List (String × String)))

/-- Python exceptions the modelled code can raise. -/
inductive PyErr where
  | transUpdateError (msg : String)
  | indexError
  | osError
deriving DecidableEq

deriving instance DecidableEq for Except

/-- `_Const.EXIT_OK`. -/
def EXIT_OK : Nat := 0

/-- `_Const.EXIT_ERROR`. -/
def EXIT_ERROR : Nat := 1

/-- `_Const.EXIT_OK_NOCHANGES`. -/
def EXIT_OK_NOCHANGES : Nat := 100

/-- Python truthiness of an optional string (`None` and `""` are falsy). -/
def truthyS : Option String → Bool
  | none => false
  | some s => !(s == "")

/-- How `%s`-formatting renders an optional string (`None` prints as the
four characters `None`). -/
def optStr : Option String → String
  | none => "None"
  | some s => s

/-- `native_lang = lang.items()[0][1] if lang.items()[0][1] else tx_lang`. -/
def nativeLang (lang : LangEntry) : String :=
  if truthyS lang.nativeCode then lang.nativeCode.getD "" else lang.txCode

namespace ResourceInfo

/-- `self._lang_exclude`: `"pig_latin"` followed by every configured
Transifex language code. -/
def langExclude (spec : ResSpec) : List String :=
  "pig_latin" :: spec.langs.map (fun lang => lang.txCode)

/-- The compiled regular expression `.*SEP(code1|...|coden)$` applied with
`re.match` to a file stem (see module docstring for the embedding). -/
def isForeignLang (sep : String) (exclude : List String) (stem : String) : Bool :=
  exclude.any (fun code => strEndsWith stem (sep ++ code))

/-- `ResourceInfo._get_english_files`: list the directory of the filespec,
keep the names matching the glob whose extension-stripped stem is not a
foreign-language stem, and re-join them to the directory. -/
def get_english_files (exclude : List String) (fsys : Fsys) (full_filespec sep : String) :
    Option (List String) :=
  let dir := (posixSplit full_filespec).1
  let filespec := (posixSplit full_filespec).2
  match fsys.listdir dir with
  | none => none
  | some entries =>
    some ((entries.filter (fun fn =>
        fnmatch filespec fn && !(isForeignLang sep exclude (splitext fn).1))).map
      (fun fn => pathJoin dir fn))

/-- The branch condition of `ResourceInfo.get`: `"%s" in path` where
`path, filename = os.path.split(item[0])` — the placeholder is looked for in
the directory part only. -/
def templated_dispatch (pattern : String) : Bool :=
  containsPct (posixSplit pattern).1

/-- The claim's dispatch predicate, for refinement comparison: stated from
the spec's words, a rule is templated when the placeholder token occurs
anywhere in the path pattern. -/
def claimTemplatedDispatch (pattern : String) : Bool :=
  containsPct pattern

/-- `full_filespec` of the wildcard branch: re-assemble the (possibly
marker-suffixed) English filename under the source folder. -/
def wild_filespec (src : String) (item : ResRule) : String :=
  let filename := (posixSplit item.pattern).2
  let filenameOnly := (splitext filename).1
  let ext := (splitext filename).2
  let filenameEnglish :=
    if truthyS item.marker then filenameOnly ++ item.sep ++ item.marker.getD "" ++ ext
    else filenameOnly ++ ext
  pathJoin src (pathJoin (posixSplit item.pattern).1 filenameEnglish)

/-- Wildcard-branch translated filename for one English file and one
language: strip the marker suffix when configured, else append separator and
native code to the stem. -/
def wild_lang_file (item : ResRule) (lang : LangEntry) (english_file : String) : String :=
  let dir := (posixSplit english_file).1
  let fn := (posixSplit english_file).2
  let stem := (splitext fn).1
  let ext := (splitext fn).2
  if truthyS item.marker then
    pathJoin dir (stem.dropRight (item.marker.getD "").length ++ nativeLang lang ++ ext)
  else
    pathJoin dir (stem ++ item.sep ++ nativeLang lang ++ ext)

/-- The body of `ResourceInfo.get` for a single resource rule, returning the
(file, resource-name, language-code) list triple contributed by that rule;
`none` models the `OSError` of `os.listdir` on a missing directory. -/
def getRule (exclude : List String) (langs : List LangEntry) (src : String) (fsys : Fsys)
    (english_mode : Bool) (item : ResRule) :
    Option (List String × List String × List String) :=
  if templated_dispatch item.pattern then
    if english_mode then
      some ([pathJoin src (percentS item.pattern (optStr item.marker))], [], [])
    else
      some (langs.map (fun lang => pathJoin src (percentS item.pattern (item.sep ++ nativeLang lang))),
            langs.map (fun _ => (posixSplit item.pattern).2),
            langs.map (fun lang => lang.txCode))
  else
    match get_english_files exclude fsys (wild_filespec src item) item.sep with
    | none => none
    | some english_files =>
      if english_mode then some (english_files, [], [])
      else
        some (langs.flatMap (fun lang => english_files.map (fun ef => wild_lang_file item lang ef)),
              langs.flatMap (fun _ => english_files.map (fun ef => (posixSplit ef).2)),
              langs.flatMap (fun lang => english_files.map (fun _ => lang.txCode)))

/-- `ResourceInfo.get` iterating the rules in order, concatenating the three
accumulated lists. -/
def getList (exclude : List String) (langs : List LangEntry) (src : String) (fsys : Fsys)
    (english_mode : Bool) : List ResRule → Option (List String × List String × List String)
  | [] => some ([], [], [])
  | item :: rest =>
    match getRule exclude langs src fsys english_mode item with
    | none => none
    | some (f1, r1, l1) =>
      match getList exclude langs src fsys english_mode rest with
      | none => none
      | some (f2, r2, l2) => some (f1 ++ f2, r1 ++ r2, l1 ++ l2)

/-- `ResourceInfo.get(english_mode)`. -/
def get (spec : ResSpec) (src : String) (fsys : Fsys) (english_mode : Bool) :
    Option (List String × List String × List String) :=
  getList (langExclude spec) spec.langs src fsys english_mode spec.resources

/-- The (file, resource-name, language-code) units one rule contributes in
translation mode, kept together as triples. -/
def ruleUnits (exclude : List String) (langs : List LangEntry) (src : String) (fsys : Fsys)
    (item : ResRule) : Option (List (String × String × String)) :=
  if templated_dispatch item.pattern then
    some (langs.map (fun lang =>
      (pathJoin src (percentS item.pattern (item.sep ++ nativeLang lang)),
       (posixSplit item.pattern).2, lang.txCode)))
  else
    match get_english_files exclude fsys (wild_filespec src item) item.sep with
    | none => none
    | some english_files =>
      some (langs.flatMap (fun lang => english_files.map (fun ef =>
        (wild_lang_file item lang ef, (posixSplit ef).2, lang.txCode))))

/-- The translation-mode units of all rules, in rule order. -/
def specUnits (exclude : List String) (langs : List LangEntry) (src : String) (fsys : Fsys) :
    List ResRule → Option (List (String × String × String))
  | [] => some []
  | item :: rest =>
    match ruleUnits exclude langs src fsys item with
    | none => none
    | some u1 =>
      match specUnits exclude langs src fsys rest with
      | none => none
      | some u2 => some (u1 ++ u2)

end ResourceInfo

namespace TransUpdate

/-- `self._transifex_i18n_type`: the fixed extension-to-format table. -/
def transifex_i18n_type : List (String × String) :=
  [("po", "PO"), ("properties", "UNICODEPROPERTIES"), ("html", "HTML"),
   ("strings", "STRINGS"), ("xml", "ANDROID"), ("json", "CHROME"), ("ts", "QT")]

/-- `TransUpdate._get_i18n_type`: take the `os.path.splitext` extension,
split it on dots and index element 1 (an `IndexError` when the extension is
empty), then look the piece up in the format table. -/
def get_i18n_type (full_filename : String) : Except PyErr String :=
  let ext := (splitext full_filename).2
  match (pySplitDot ext.toList).get? 1 with
  | none => Except.error PyErr.indexError
  | some fe =>
    match transifex_i18n_type.lookup fe.asString with
    | some t => Except.ok t
    | none =>
      Except.error (PyErr.transUpdateError
        ("ERROR: unrecognised extension in filename: " ++ full_filename))

/-- `TransUpdate._compute_file_hash`: fatal `TransUpdateError` when the file
does not exist, else the MD5 hex digest of its full contents. -/
def compute_file_hash (md5 : List Nat → String) (fsys : Fsys) (filename : String) :
    Except PyErr String :=
  match fsys.fileBytes filename with
  | none => Except.error (PyErr.transUpdateError ("ERROR: file does not exist: " ++ filename))
  | some bytes => Except.ok (md5 bytes)

/-- `file[len(download_path)+1:]`: the path made relative to the download
path. -/
def relName (download_path file : String) : String :=
  (file.toList.drop (download_path.length + 1)).asString

/-- The dict-building loop of `TransUpdate._compute_current_hashinfo`. -/
def compute_hashinfo_aux (md5 : List Nat → String) (fsys : Fsys) (download_path : String) :
    List String → List (String × String) → Except PyErr (List (String × String))
  | [], acc => Except.ok acc
  | f :: fs, acc =>
    match compute_file_hash md5 fsys f with
    | Except.error e => Except.error e
    | Except.ok h =>
      compute_hashinfo_aux md5 fsys download_path fs (dictInsert acc (relName download_path f) h)

/-- `TransUpdate._compute_current_hashinfo`. -/
def compute_current_hashinfo (md5 : List Nat → String) (fsys : Fsys) (download_path : String)
    (file_list : List String) : Except PyErr (List (String × String)) :=
  compute_hashinfo_aux md5 fsys download_path file_list []

/-- `TransUpdate._get_hash_filename`: `{branch}_{repo}[_{suffix}].json`
inside the checksum folder. -/
def get_hash_filename (cksum_folder git_branch repo_name suffix : String) : String :=
  pathJoin cksum_folder
    (git_branch ++ "_" ++ repo_name ++ (if suffix == "" then suffix else "_" ++ suffix) ++ ".json")

/-- `TransUpdate._read_previous_hashinfo`: every failure (missing file,
invalid JSON) is swallowed and yields the empty mapping. -/
def read_previous_hashinfo (store : Store) (cksum_folder git_branch reponame suffix : String) :
    List (String × String) :=
  match store (get_hash_filename cksum_folder git_branch reponame suffix) with
  | some (some m) => m
  | _ => []

/-- The per-item test of `_get_changed_and_new_resources`: changed when the
key is present in the previous snapshot with a different hash, new when it is
absent. -/
def changedPred (previous : List (String × String)) (kh : String × String) : Bool :=
  match previous.lookup kh.1 with
  | some ph => !(kh.2 == ph)
  | none => true

/-- `TransUpdate._get_changed_and_new_resources`: nothing is reported without
a checksum folder; otherwise hash every file, compare against the previous
snapshot, and return the changed-or-new relative paths sorted. -/
def get_changed_and_new_resources (md5 : List Nat → String) (fsys : Fsys) (store : Store)
    (cksum_folder git_branch reponame download_path : String) (file_list : List String)
    (suffix : String) : Except PyErr (List String) :=
  if cksum_folder == "" then Except.ok []
  else
    match compute_current_hashinfo md5 fsys download_path file_list with
    | Except.error e => Except.error e
    | Except.ok latest =>
      let previous := read_previous_hashinfo store cksum_folder git_branch reponame suffix
      Except.ok (sortByKey (fun s => s) ((latest.filter (changedPred previous)).map (fun kh => kh.1)))

/-- `TransUpdate.write_cksumfile`: recompute the file list in the requested
mode, hash it, and overwrite the checksum file with the mapping serialized
with sorted keys.  Returns the new store alongside `EXIT_OK`. -/
def write_cksumfile (md5 : List Nat → String) (fsys : Fsys) (store : Store) (spec : ResSpec)
    (src reponame cksum_folder git_branch download_path suffix : String) (english_mode : Bool) :
    Except PyErr (Nat × Store) :=
  match ResourceInfo.get spec src fsys english_mode with
  | none => Except.error PyErr.osError
  | some (file_list, _, _) =>
    match compute_current_hashinfo md5 fsys download_path file_list with
    | Except.error e => Except.error e
    | Except.ok latest =>
      Except.ok (EXIT_OK, fun p =>
        if p = get_hash_filename cksum_folder git_branch reponame suffix then
          some (some (sortByKey (fun kv => kv.1) latest))
        else store p)

/-- `TransUpdate._get_filtered_upload_list`: either all English resources
(`filelist == "all"`) or the lines of the given change-list file joined to
the clone path and intersected with the English resources, in line order. -/
def get_filtered_upload_list (fsys : Fsys) (spec : ResSpec) (clonepath filelist : String) :
    Except PyErr (List String) :=
  match ResourceInfo.get spec clonepath fsys true with
  | none => Except.error PyErr.osError
  | some (all_res_files, _, _) =>
    if filelist == "all" then Except.ok all_res_files
    else
      match fsys.readLines filelist with
      | none => Except.error PyErr.osError
      | some lines =>
        Except.ok ((lines.map (fun line => pathJoin clonepath (rstripNL line))).filter
          (fun tf => all_res_files.contains tf))

/-- `TransUpdate._get_filtered_upload_list_by_cksum_compare`: changed-or-new
English resources, re-joined to the download path. -/
def get_filtered_upload_list_by_cksum_compare (md5 : List Nat → String) (fsys : Fsys)
    (store : Store) (spec : ResSpec)
    (clonepath reponame cksum_folder git_branch download_path suffix : String) :
    Except PyErr (List String) :=
  match ResourceInfo.get spec clonepath fsys true with
  | none => Except.error PyErr.osError
  | some (file_list, _, _) =>
    match get_changed_and_new_resources md5 fsys store cksum_folder git_branch reponame
        download_path file_list suffix with
    | Except.error e => Except.error e
    | Except.ok changed => Except.ok (changed.map (fun cf => pathJoin download_path cf))

/-- The upload loop of `upload_source_files`: per file, the format lookup can
raise; the network calls themselves do not affect the modelled state. -/
def uploadLoop : List String → Except PyErr Unit
  | [] => Except.ok ()
  | f :: fs =>
    match get_i18n_type f with
    | Except.error e => Except.error e
    | Except.ok _ => uploadLoop fs

/-- `TransUpdate.upload_source_files`: check the project exists, filter the
upload list by hash compare (`filehash`) or by explicit change list, run the
upload loop, and — only in hash-compare mode with a non-empty upload list —
write a fresh English-mode checksum file before returning `EXIT_OK`. -/
def upload_source_files (md5 : List Nat → String) (fsys : Fsys) (store : Store)
    (project_exists : Bool) (spec : ResSpec) (clonepath reponame filelist : String)
    (filehash : Bool) (cksum_folder git_branch download_path : String) :
    Except PyErr (Nat × Store) :=
  if project_exists then
    match (if filehash then
        get_filtered_upload_list_by_cksum_compare md5 fsys store spec clonepath reponame
          cksum_folder git_branch download_path "english"
      else get_filtered_upload_list fsys spec clonepath filelist) with
    | Except.error e => Except.error e
    | Except.ok res_files =>
      match uploadLoop res_files with
      | Except.error e => Except.error e
      | Except.ok _ =>
        if filehash && decide (0 < res_files.length) then
          write_cksumfile md5 fsys store spec clonepath reponame cksum_folder git_branch
            download_path "english" true
        else Except.ok (EXIT_OK, store)
  else Except.error (PyErr.transUpdateError "ERROR: project does not exist")

/-- `TransUpdate.process_translated_files`: resolve the full translated file
list, check the project, download everything (downloads record completion
stats for exactly the relative names of the downloaded files, so the stats
check of `_display_results` never fires and is not modelled as a failure),
then classify against the snapshot purely for reporting; zero changed-or-new
entries yield `EXIT_OK_NOCHANGES` instead of `EXIT_OK`.  The store is only
read. -/
def process_translated_files (md5 : List Nat → String) (fsys : Fsys) (store : Store)
    (project_exists : Bool) (spec : ResSpec)
    (clonepath reponame cksum_folder git_branch download_path : String) :
    Except PyErr (Nat × Store) :=
  match ResourceInfo.get spec clonepath fsys false with
  | none => Except.error PyErr.osError
  | some (file_list, _, _) =>
    if project_exists then
      match get_changed_and_new_resources md5 fsys store cksum_folder git_branch reponame
          download_path file_list "" with
      | Except.error e => Except.error e
      | Except.ok changed =>
        Except.ok ((if changed.length != 0 then EXIT_OK else EXIT_OK_NOCHANGES), store)
    else Except.error (PyErr.transUpdateError "ERROR: project does not exist")

end TransUpdate

/-! ### Concrete fixtures used to evaluate the model -/

/-- A fixed stand-in digest function for concrete runs. -/
def md5c : List Nat → String := fun _ => "h"

/-- A checksum store with no files. -/
def emptyStore : Store := fun _ => none

/-- A filesystem with no directories and no files. -/
def fsysEmpty : Fsys := ⟨fun _ => none, fun _ => none, fun _ => none⟩

/-- A resource spec with no rules and no languages. -/
def specEmpty : ResSpec := ⟨[], []⟩

/-- The spec of the wildcard scenario: one rule `proj/*.po` with separator
`_` and no marker; one language `fr` with no native code. -/
def specC5 : ResSpec := ⟨[⟨"proj/*.po", "_", none⟩], [⟨"fr", none⟩]⟩

/-- A clone at `/repo` whose `proj` directory holds `a.po` and `a_fr.po`. -/
def fsysC5 : Fsys :=
  ⟨fun d => if d = "/repo/proj" then some ["a.po", "a_fr.po"] else none,
   fun _ => none, fun _ => none⟩

/-- A rule whose `%s` placeholder sits in the final filename component. -/
def ruleC2 : ResRule := ⟨"res/%s.strings", "", some "en"⟩

/-- A spec holding only `ruleC2`. -/
def specC2 : ResSpec := ⟨[ruleC2], []⟩

/-- A clone at `/r` whose `res` directory holds `en.strings`. -/
def fsysC2 : Fsys :=
  ⟨fun d => if d = "/r/res" then some ["en.strings"] else none,
   fun _ => none, fun _ => none⟩

/-- A templated rule (`%s` in a directory component). -/
def ruleT : ResRule := ⟨"d/%s/f.po", "p", some "en"⟩

/-- A spec holding only `ruleT`. -/
def specT : ResSpec := ⟨[ruleT], []⟩

/-- A filesystem holding exactly the English file of `ruleT` under `/r`. -/
def fsysT : Fsys :=
  ⟨fun _ => none, fun f => if f = "/r/d/en/f.po" then some [0] else none, fun _ => none⟩

/-- A filesystem holding exactly `/r/a.po`. -/
def fsys4 : Fsys :=
  ⟨fun _ => none, fun f => if f = "/r/a.po" then some [1] else none, fun _ => none⟩

/-- The store produced by writing the snapshot of `fsysT`'s single English
file for branch `main`, repo `repo`, suffix `english`. -/
def storeW8 : Store := fun p =>
  if p = TransUpdate.get_hash_filename "ck" "main" "repo" "english" then
    some (some (sortByKey (fun kv => kv.1) [("d/en/f.po", "h")]))
  else emptyStore p

/-! ### Helper lemmas: string order -/

theorem charListLe_iff_not_lt : ∀ as bs : List Char, charListLe as bs = true ↔ ¬ List.lt bs as
  | [], bs => by
    simp only [charListLe, true_iff]
    intro h
    cases h
  | a :: as, [] => by
    simp only [charListLe, Bool.false_eq_true, false_iff, not_not]
    exact List.lt.nil a as
  | a :: as, b :: bs => by
    rcases lt_trichotomy a b with hlt | heq | hgt
    · have hab : a ≠ b := ne_of_lt hlt
      simp only [charListLe, if_neg hab, decide_eq_true_eq]
      constructor
      · intro _ hl
        cases hl with
        | head _ _ h1 => exact absurd hlt (asymm h1)
        | tail _ h2 _ => exact h2 hlt
      · intro _
        exact hlt
    · subst heq
      rw [charListLe_cons, if_pos rfl]
      rw [charListLe_iff_not_lt as bs]
      constructor
      · intro h hl
        cases hl with
        | head _ _ h1 => exact absurd h1 (lt_irrefl a)
        | tail _ _ h3 => exact h h3
      · intro h hl
        exact h (List.lt.tail (lt_irrefl a) (lt_irrefl a) hl)
    · have hab : a ≠ b := (ne_of_lt hgt).symm
      simp only [charListLe, if_neg hab, decide_eq_true_eq]
      constructor
      · intro h1
        exact absurd h1 (asymm hgt)
      · intro hn
        exact absurd (List.lt.head bs as hgt) hn

theorem strLe_iff_le (s t : String) : strLe s t = true ↔ s ≤ t := by
  have h1 : strLe s t = true ↔ ¬ List.lt t.toList s.toList :=
    charListLe_iff_not_lt s.toList t.toList
  have h2 : (t < s) ↔ List.lt t.toList s.toList := by
    rw [String.lt_iff_toList_lt]
    exact (List.lt_iff_lex_lt t.toList s.toList).symm
  have h3 : (s ≤ t) ↔ ¬ t < s := Iff.rfl
  rw [h3, h2]
  exact h1

theorem strLe_of_not_le {a b : String} (h : strLe a b = false) : strLe b a = true := by
  rw [strLe_iff_le]
  have hn : ¬ a ≤ b := by
    rw [← strLe_iff_le, h]
    simp
  exact le_of_not_le hn

/-! ### Helper lemmas: insertion sort by string key -/

theorem mem_insortBy {α : Type} (key : α → String) (x a : α) :
    ∀ l : List α, a ∈ insortBy key x l ↔ a = x ∨ a ∈ l
  | [] => by simp [insortBy]
  | y :: ys => by
    simp only [insortBy]
    split
    · simp [List.mem_cons]
    · simp only [List.mem_cons, mem_insortBy key x a ys]
      tauto

theorem perm_insortBy {α : Type} (key : α → String) (x : α) :
    ∀ l : List α, (insortBy key x l).Perm (x :: l)
  | [] => List.Perm.refl _
  | y :: ys => by
    simp only [insortBy]
    split
    · exact List.Perm.refl _
    · exact ((perm_insortBy key x ys).cons y).trans (List.Perm.swap x y ys)

theorem pairwise_insortBy {α : Type} (key : α → String) (x : α) :
    ∀ l : List α, (l.Pairwise fun a b => strLe (key a) (key b) = true) →
      ((insortBy key x l).Pairwise fun a b => strLe (key a) (key b) = true)
  | [], _ => by simp [insortBy]
  | y :: ys, h => by
    rcases List.pairwise_cons.mp h with ⟨hy, hys⟩
    simp only [insortBy]
    split
    case isTrue hxy =>
      refine List.pairwise_cons.mpr ⟨?_, h⟩
      intro b hb
      rcases List.mem_cons.mp hb with rfl | hbys
      · exact hxy
      · have h1 : key x ≤ key y := (strLe_iff_le _ _).mp hxy
        have h2 : key y ≤ key b := (strLe_iff_le _ _).mp (hy b hbys)
        exact (strLe_iff_le _ _).mpr (le_trans h1 h2)
    case isFalse hxy =>
      refine List.pairwise_cons.mpr ⟨?_, pairwise_insortBy key x ys hys⟩
      intro b hb
      rcases (mem_insortBy key x b ys).mp hb with rfl | hbys
      · exact strLe_of_not_le (Bool.eq_false_iff.mpr hxy)
      · exact hy b hbys

theorem sortByKey_perm {α : Type} (key : α → String) :
    ∀ l : List α, (sortByKey key l).Perm l
  | [] => List.Perm.refl _
  | x :: xs => by
    simp only [sortByKey, List.foldr]
    exact (perm_insortBy key x _).trans (((sortByKey_perm key xs).cons x))

theorem sortByKey_pairwise {α : Type} (key : α → String) :
    ∀ l : List α, (sortByKey key l).Pairwise fun a b => strLe (key a) (key b) = true
  | [] => by simp [sortByKey]
  | x :: xs => by
    simp only [sortByKey, List.foldr]
    exact pairwise_insortBy key x _ (sortByKey_pairwise key xs)

theorem mem_sortByKey {α : Type} (key : α → String) (l : List α) (a : α) :
    a ∈ sortByKey key l ↔ a ∈ l :=
  (sortByKey_perm key l).mem_iff

/-! ### Helper lemmas: association-list lookup -/

theorem mem_of_lookup_eq_some {k v : String} :
    ∀ {l : List (String × String)}, l.lookup k = some v → (k, v) ∈ l
  | [], h => by simp [List.lookup] at h
  | (a, b) :: t, h => by
    rcases hka : (k == a) with _ | _
    · simp only [List.lookup, hka] at h
      exact List.mem_cons_of_mem _ (mem_of_lookup_eq_some h)
    · simp only [List.lookup, hka] at h
      have hk : k = a := eq_of_beq hka
      subst hk
      cases h
      exact List.mem_cons_self _ _

theorem lookup_eq_some_of_mem {k v : String} :
    ∀ {l : List (String × String)}, (l.map Prod.fst).Nodup → (k, v) ∈ l →
      l.lookup k = some v
  | [], _, h => by simp at h
  | (a, b) :: t, hn, h => by
    simp only [List.map_cons, List.nodup_cons] at hn
    rcases List.mem_cons.mp h with heq | ht
    · injection heq with h1 h2
      subst h1
      subst h2
      simp [List.lookup]
    · have hka : (k == a) = false := by
        have hmem : k ∈ t.map Prod.fst := List.mem_map.mpr ⟨(k, v), ht, rfl⟩
        exact beq_eq_false_iff_ne.mpr (fun hkk => hn.1 (hkk ▸ hmem))
      simp only [List.lookup, hka]
      exact lookup_eq_some_of_mem hn.2 ht

theorem lookup_eq_of_perm {k : String} {l₁ l₂ : List (String × String)}
    (hp : l₁.Perm l₂) : (l₁.map Prod.fst).Nodup → l₁.lookup k = l₂.lookup k := by
  induction hp with
  | nil => intro _; rfl
  | cons x _ ih =>
    intro hn
    obtain ⟨a, b⟩ := x
    simp only [List.map_cons, List.nodup_cons] at hn
    rcases hka : (k == a) with _ | _ <;> simp only [List.lookup, hka]
    exact ih hn.2
  | swap x y l =>
    intro hn
    obtain ⟨xa, xb⟩ := x
    obtain ⟨ya, yb⟩ := y
    simp only [List.map_cons, List.nodup_cons, List.mem_cons] at hn
    have hyx : ya ≠ xa := fun hh => hn.1 (Or.inl hh)
    rcases hky : (k == ya) with _ | _ <;> rcases hkx : (k == xa) with _ | _ <;>
      simp only [List.lookup, hky, hkx]
    exact absurd (eq_of_beq hky ▸ eq_of_beq hkx : ya = xa) hyx
  | trans h₁ _ ih₁ ih₂ =>
    intro hn
    have hn2 := ((h₁.map Prod.fst).nodup_iff).mp hn
    exact (ih₁ hn).trans (ih₂ hn2)

theorem lookup_sortByKey {l : List (String × String)} {k : String}
    (hn : (l.map Prod.fst).Nodup) :
    (sortByKey (fun kv => kv.1) l).lookup k = l.lookup k := by
  have hperm := sortByKey_perm (fun kv => kv.1) l
  have hns : ((sortByKey (fun kv => kv.1) l).map Prod.fst).Nodup :=
    ((hperm.map Prod.fst).nodup_iff).mpr hn
  exact lookup_eq_of_perm hperm hns

/-! ### Helper lemmas: dict building -/

theorem dictInsert_keys_nodup {m : List (String × String)} {k v : String}
    (h : (m.map Prod.fst).Nodup) : ((dictInsert m k v).map Prod.fst).Nodup := by
  unfold dictInsert
  split
  case isTrue hany =>
    have hkeys : (m.map (fun kv => if kv.1 == k then (k, v) else kv)).map Prod.fst
        = m.map Prod.fst := by
      rw [List.map_map]
      apply List.map_congr_left
      intro a _
      by_cases hak : (a.1 == k) = true
      · simp only [Function.comp_apply, if_pos hak]
        exact (eq_of_beq hak).symm
      · simp only [Function.comp_apply, if_neg hak]
    rw [hkeys]
    exact h
  case isFalse hany =>
    have hk : k ∉ m.map Prod.fst := by
      intro hmem
      rcases List.mem_map.mp hmem with ⟨kv, hkv, hfst⟩
      exact hany (List.any_eq_true.mpr ⟨kv, hkv, beq_iff_eq.mpr hfst⟩)
    rw [List.map_append]
    simp only [List.map_cons, List.map_nil]
    refine List.nodup_append.mpr ⟨h, List.nodup_singleton k, ?_⟩
    intro a ha hb
    rw [List.mem_singleton] at hb
    subst hb
    exact hk ha

theorem compute_aux_nodup (md5 : List Nat → String) (fsys : Fsys) (dp : String) :
    ∀ (fl : List String) (acc latest : List (String × String)),
      (acc.map Prod.fst).Nodup →
      TransUpdate.compute_hashinfo_aux md5 fsys dp fl acc = Except.ok latest →
      (latest.map Prod.fst).Nodup
  | [], acc, latest, hn, h => by
    simp only [TransUpdate.compute_hashinfo_aux, Except.ok.injEq] at h
    exact h ▸ hn
  | f :: fs, acc, latest, hn, h => by
    simp only [TransUpdate.compute_hashinfo_aux] at h
    cases hcf : TransUpdate.compute_file_hash md5 fsys f with
    | error e => rw [hcf] at h; cases h
    | ok hh =>
      rw [hcf] at h
      exact compute_aux_nodup md5 fsys dp fs _ latest (dictInsert_keys_nodup hn) h

theorem compute_nodup {md5 : List Nat → String} {fsys : Fsys} {dp : String}
    {fl : List String} {latest : List (String × String)}
    (h : TransUpdate.compute_current_hashinfo md5 fsys dp fl = Except.ok latest) :
    (latest.map Prod.fst).Nodup :=
  compute_aux_nodup md5 fsys dp fl [] latest (by simp) h

/-! ### Helper lemmas: splitext structure and dot-splitting -/

theorem dropWhile_head_false {α : Type} (q : α → Bool) :
    ∀ (l : List α) (x : α) (xs : List α), l.dropWhile q = x :: xs → q x = false
  | [], x, xs, h => by simp [List.dropWhile] at h
  | a :: t, x, xs, h => by
    rw [List.dropWhile_cons] at h
    split at h
    · exact dropWhile_head_false q t x xs h
    case isFalse hq =>
      injection h with h1 _
      subst h1
      exact Bool.not_eq_true _ ▸ Bool.eq_false_iff.mpr hq

theorem pySplitDot_dotfree : ∀ l : List Char, '.' ∉ l → pySplitDot l = [l]
  | [], _ => rfl
  | c :: rest, h => by
    have hc : ¬ c = '.' := by
      intro hcc
      exact h (hcc ▸ List.mem_cons_self c rest)
    have hrest : '.' ∉ rest := fun hm => h (List.mem_cons_of_mem c hm)
    simp only [pySplitDot, if_neg hc]
    rw [pySplitDot_dotfree rest hrest]

theorem splitext_ext_structure (p : String) :
    (splitext p).2 = "" ∨
      ((splitext p).2.toList = '.' :: (splitext p).2.toList.drop 1 ∧
        '.' ∉ (splitext p).2.toList.drop 1) := by
  have hsnd : (splitext p).2 =
      (p.toList.drop (p.toList.length -
        splitExtLen (p.toList.reverse.takeWhile (fun c => c ≠ '/')))).asString := rfl
  cases hd : (p.toList.reverse.takeWhile (fun c => c ≠ '/')).dropWhile (fun c => c ≠ '.') with
  | nil =>
    left
    rw [hsnd]
    simp only [splitExtLen, hd]
    rw [Nat.sub_zero, List.drop_length]
    rfl
  | cons c rtail =>
    by_cases hany : rtail.any (fun ch => ch ≠ '.') = true
    · right
      set l := p.toList with hl
      set r := p.toList.reverse with hr
      set rbase := p.toList.reverse.takeWhile (fun c => c ≠ '/') with hrb
      set rext := rbase.takeWhile (fun c => c ≠ '.') with hre
      have hn : splitExtLen rbase = rext.length + 1 := by
        simp only [splitExtLen, hd, hany, if_true]
      have hc : c = '.' := by
        have hq := dropWhile_head_false _ rbase c rtail hd
        simpa using hq
      have hsplit : rext ++ c :: rtail = rbase := by
        rw [← hd, hre]
        exact List.takeWhile_append_dropWhile _ _
      have hpre : rbase <+: r := List.takeWhile_prefix _
      have hlen5 : rbase.length ≤ r.length := hpre.length_le
      have hlen4 : rext.length + 1 ≤ rbase.length := by
        rw [← hsplit, List.length_append, List.length_cons]
        omega
      have hlenr : r.length = l.length := by rw [hr, hl, List.length_reverse]
      have hlen6 : rext.length + 1 ≤ l.length := by omega
      obtain ⟨tl, htl⟩ := hpre
      have htake : r.take (rext.length + 1) = rext ++ ['.'] := by
        rw [← htl, List.take_append_eq_append_take, Nat.sub_eq_zero_of_le hlen4, List.take_zero,
          List.append_nil, ← hsplit, List.take_append_eq_append_take,
          List.take_of_length_le (Nat.le_succ _), Nat.add_sub_cancel_left]
        rw [hc]
        rfl
      have hext : l.drop (l.length - (rext.length + 1)) = '.' :: rext.reverse := by
        have h9 : (l.drop (l.length - (rext.length + 1))).reverse
            = r.take (rext.length + 1) := by
          rw [hr, ← hl, List.reverse_drop]
          congr 1
          omega
        have h10 := congrArg List.reverse h9
        rw [List.reverse_reverse] at h10
        rw [h10, htake, List.reverse_append]
        rfl
      have hfin : (splitext p).2.toList = '.' :: rext.reverse := by
        rw [hsnd]
        show l.drop (l.length - splitExtLen rbase) = '.' :: rext.reverse
        rw [hn]
        exact hext
      refine ⟨?_, ?_⟩
      · rw [hfin]
        rfl
      · rw [hfin]
        simp only [List.drop_succ_cons, List.drop_zero]
        intro hmem
        rw [List.mem_reverse, hre] at hmem
        have hq := List.mem_takeWhile_imp hmem
        simp at hq
    · left
      rw [hsnd]
      simp only [splitExtLen, hd]
      rw [if_neg hany, Nat.sub_zero, List.drop_length]
      rfl

/-! ### Claim theorems -/

/-- C5: for a spec with one wildcard rule `proj/*.po`, separator `_`, no
English marker and language list `[fr]`, over a directory holding exactly
`a.po` and `a_fr.po`, English-mode resolution returns only the path ending
in `proj/a.po`, and translation-mode resolution returns only the path ending
in `proj/a_fr.po` paired with resource name `a.po` and language code `fr`. -/
theorem c5_wildcard_scenario :
    ResourceInfo.get specC5 "/repo" fsysC5 true = some (["/repo/proj/a.po"], [], [])
    ∧ ResourceInfo.get specC5 "/repo" fsysC5 false
        = some (["/repo/proj/a_fr.po"], ["a.po"], ["fr"])
    ∧ strEndsWith "/repo/proj/a.po" "proj/a.po" = true
    ∧ strEndsWith "/repo/proj/a_fr.po" "proj/a_fr.po" = true := by
  decide

/-- C3: for every wildcard filespec, the resolver's English files are exactly
the directory entries matching the glob whose extension-stripped base name
does not end with the separator followed by an excluded code, where the
excluded set is `pig_latin` together with every configured Transifex code;
matching entries with such a suffix are filtered out, never classified as
English. -/
theorem c3_wildcard_english_classification (spec : ResSpec) (fsys : Fsys)
    (full_filespec sep : String) (entries : List String)
    (h : fsys.listdir (posixSplit full_filespec).1 = some entries) :
    ResourceInfo.get_english_files (ResourceInfo.langExclude spec) fsys full_filespec sep =
      some ((entries.filter (fun fn =>
          fnmatch (posixSplit full_filespec).2 fn &&
            !((ResourceInfo.langExclude spec).any (fun code =>
              strEndsWith (splitext fn).1 (sep ++ code))))).map
        (fun fn => pathJoin (posixSplit full_filespec).1 fn)) := by
  simp only [ResourceInfo.get_english_files, ResourceInfo.isForeignLang, h]

/-- C3 witness: the classification theorem applied to the concrete wildcard
scenario directory. -/
theorem c3_wildcard_english_classification_witness :
    fsysC5.listdir (posixSplit "/repo/proj/*.po").1 = some ["a.po", "a_fr.po"]
    ∧ ResourceInfo.get_english_files (ResourceInfo.langExclude specC5) fsysC5
        "/repo/proj/*.po" "_" =
      some ((["a.po", "a_fr.po"].filter (fun fn =>
          fnmatch (posixSplit "/repo/proj/*.po").2 fn &&
            !((ResourceInfo.langExclude specC5).any (fun code =>
              strEndsWith (splitext fn).1 ("_" ++ code))))).map
        (fun fn => pathJoin (posixSplit "/repo/proj/*.po").1 fn)) :=
  ⟨by decide,
   c3_wildcard_english_classification specC5 fsysC5 "/repo/proj/*.po" "_" ["a.po", "a_fr.po"]
     (by decide)⟩

/-- C6: hash computation on a file that does not exist fails with the fatal
missing-file error, while reading a snapshot file that is missing or not a
valid JSON object of strings never throws and yields the empty mapping, for
every input path. -/
theorem c6_error_asymmetry (md5 : List Nat → String) (fsys : Fsys) (store : Store)
    (path cksum_folder git_branch reponame suffix : String) :
    (fsys.fileBytes path = none →
      TransUpdate.compute_file_hash md5 fsys path
        = Except.error (PyErr.transUpdateError ("ERROR: file does not exist: " ++ path)))
    ∧ (store (TransUpdate.get_hash_filename cksum_folder git_branch reponame suffix) = none →
        TransUpdate.read_previous_hashinfo store cksum_folder git_branch reponame suffix = [])
    ∧ (store (TransUpdate.get_hash_filename cksum_folder git_branch reponame suffix)
          = some none →
        TransUpdate.read_previous_hashinfo store cksum_folder git_branch reponame suffix
          = []) := by
  refine ⟨?_, ?_, ?_⟩
  · intro h
    unfold TransUpdate.compute_file_hash
    rw [h]
  · intro h
    unfold TransUpdate.read_previous_hashinfo
    rw [h]
  · intro h
    unfold TransUpdate.read_previous_hashinfo
    rw [h]

/-- C6 witness: the asymmetry at a concrete missing file and an empty
checksum store. -/
theorem c6_error_asymmetry_witness :
    fsysEmpty.fileBytes "missing.po" = none
    ∧ TransUpdate.compute_file_hash md5c fsysEmpty "missing.po"
        = Except.error (PyErr.transUpdateError ("ERROR: file does not exist: " ++ "missing.po"))
    ∧ emptyStore (TransUpdate.get_hash_filename "ck" "main" "repo" "english") = none
    ∧ TransUpdate.read_previous_hashinfo emptyStore "ck" "main" "repo" "english" = [] :=
  ⟨rfl,
   (c6_error_asymmetry md5c fsysEmpty emptyStore "missing.po" "ck" "main" "repo" "english").1 rfl,
   rfl,
   (c6_error_asymmetry md5c fsysEmpty emptyStore "missing.po" "ck" "main" "repo" "english").2.1
     rfl⟩

/-- C7 (amended): determining the upload format succeeds with the table
entry when the filename has a nonempty `splitext` extension whose text after
the dot is a recognized key of the seven-entry table, fails with the
unsupported-format error when the nonempty extension is unrecognized, and
fails with an `IndexError` — not the unsupported-format error — when the
filename has no extension at all (`"".split(".")` has no element 1). -/
theorem c7_i18n_type_amended (fn : String) :
    ((splitext fn).2 = "" → TransUpdate.get_i18n_type fn = Except.error PyErr.indexError)
    ∧ (∀ fmt : String, (splitext fn).2 ≠ "" →
        TransUpdate.transifex_i18n_type.lookup ((splitext fn).2.toList.drop 1).asString
          = some fmt →
        TransUpdate.get_i18n_type fn = Except.ok fmt)
    ∧ ((splitext fn).2 ≠ "" →
        TransUpdate.transifex_i18n_type.lookup ((splitext fn).2.toList.drop 1).asString
          = none →
        TransUpdate.get_i18n_type fn
          = Except.error (PyErr.transUpdateError
              ("ERROR: unrecognised extension in filename: " ++ fn))) := by
  have hstruct := splitext_ext_structure fn
  refine ⟨?_, ?_, ?_⟩
  · intro h
    simp only [TransUpdate.get_i18n_type, h]
    rfl
  · intro fmt hne hlook
    rcases hstruct with h0 | ⟨hcons, hfree⟩
    · exact absurd h0 hne
    · simp only [TransUpdate.get_i18n_type]
      set rest := (splitext fn).2.toList.drop 1 with hrest
      rw [hcons]
      simp only [pySplitDot, if_pos rfl]
      rw [pySplitDot_dotfree rest hfree]
      simp only [List.get?]
      rw [hlook]
  · intro hne hlook
    rcases hstruct with h0 | ⟨hcons, hfree⟩
    · exact absurd h0 hne
    · simp only [TransUpdate.get_i18n_type]
      set rest := (splitext fn).2.toList.drop 1 with hrest
      rw [hcons]
      simp only [pySplitDot, if_pos rfl]
      rw [pySplitDot_dotfree rest hfree]
      simp only [List.get?]
      rw [hlook]

/-- C7 counterexample: on a filename with no extension the code raises an
`IndexError`, not the unsupported-format `TransUpdateError` the claim
names. -/
theorem c7_i18n_type_counterexample :
    TransUpdate.get_i18n_type "Makefile" = Except.error PyErr.indexError
    ∧ TransUpdate.get_i18n_type "Makefile"
        ≠ Except.error (PyErr.transUpdateError
            ("ERROR: unrecognised extension in filename: " ++ "Makefile")) := by
  decide

/-- C7 witness: the amended theorem applied to `a.po`. -/
theorem c7_i18n_type_amended_witness :
    ((splitext "a.po").2 ≠ ""
      ∧ TransUpdate.transifex_i18n_type.lookup
          ((splitext "a.po").2.toList.drop 1).asString = some "PO")
    ∧ TransUpdate.get_i18n_type "a.po" = Except.ok "PO" :=
  ⟨⟨by decide, by decide⟩, (c7_i18n_type_amended "a.po").2.1 "PO" (by decide) (by decide)⟩

/-- C2 (amended): the resolver dispatches a rule to the templated branch if
and only if the placeholder token occurs in the directory portion of the
path pattern (the part `os.path.split` leaves before the final component);
when it does, English-mode resolution emits exactly the marker-substituted
path, and when it does not — even if the placeholder occurs in the final
filename component — the rule is resolved through the wildcard branch. -/
theorem c2_dispatch_amended (item : ResRule) (exclude : List String) (langs : List LangEntry)
    (src : String) (fsys : Fsys) :
    ResourceInfo.templated_dispatch item.pattern = containsPct (posixSplit item.pattern).1
    ∧ (ResourceInfo.templated_dispatch item.pattern = true →
        ResourceInfo.getRule exclude langs src fsys true item
          = some ([pathJoin src (percentS item.pattern (optStr item.marker))], [], []))
    ∧ (ResourceInfo.templated_dispatch item.pattern = false →
        ResourceInfo.getRule exclude langs src fsys true item
          = (ResourceInfo.get_english_files exclude fsys (ResourceInfo.wild_filespec src item)
              item.sep).map (fun efs => (efs, [], []))) := by
  refine ⟨rfl, ?_, ?_⟩
  · intro h
    unfold ResourceInfo.getRule
    rw [h]
    rfl
  · intro h
    unfold ResourceInfo.getRule
    rw [h]
    cases hge : ResourceInfo.get_english_files exclude fsys (ResourceInfo.wild_filespec src item)
        item.sep with
    | none => simp
    | some efs => simp

/-- C2 counterexample: the rule `res/%s.strings` has the placeholder in its
path pattern (in the final filename component), yet the resolver's dispatch
predicate sends it to the wildcard branch, and resolving it finds no English
file even though the directory holds `en.strings` (the templated branch
would have emitted `/r/res/en.strings`). -/
theorem c2_dispatch_counterexample :
    ResourceInfo.claimTemplatedDispatch "res/%s.strings" = true
    ∧ ResourceInfo.templated_dispatch "res/%s.strings" = false
    ∧ ResourceInfo.get specC2 "/r" fsysC2 true = some ([], [], []) := by
  decide

/-- C2 witness: the amended dispatch theorem applied to a rule whose
placeholder sits in a directory component. -/
theorem c2_dispatch_amended_witness :
    ResourceInfo.templated_dispatch ruleT.pattern = true
    ∧ ResourceInfo.getRule [] [] "/r" fsysEmpty true ruleT
        = some ([pathJoin "/r" (percentS ruleT.pattern (optStr ruleT.marker))], [], []) :=
  ⟨by decide, (c2_dispatch_amended ruleT [] [] "/r" fsysEmpty).2.1 (by decide)⟩

/-- C4: with a nonempty checksum folder, the change detector returns exactly
the relative paths whose current hash exists and differs from (or is absent
in) the previous snapshot — a path whose previous hash equals its current
hash is excluded — and the returned list is sorted. -/
theorem c4_change_detector (md5 : List Nat → String) (fsys : Fsys) (store : Store)
    (cksum_folder git_branch reponame download_path : String) (file_list : List String)
    (suffix : String) (latest : List (String × String)) (c : List String) (r : String)
    (hcf : cksum_folder ≠ "")
    (hlatest : TransUpdate.compute_current_hashinfo md5 fsys download_path file_list
      = Except.ok latest)
    (hrun : TransUpdate.get_changed_and_new_resources md5 fsys store cksum_folder git_branch
      reponame download_path file_list suffix = Except.ok c) :
    c.Pairwise (· ≤ ·)
    ∧ (r ∈ c ↔ ((latest.lookup r).isSome = true
        ∧ (TransUpdate.read_previous_hashinfo store cksum_folder git_branch reponame
            suffix).lookup r ≠ latest.lookup r)) := by
  have hbeq : (cksum_folder == "") = false := beq_eq_false_iff_ne.mpr hcf
  unfold TransUpdate.get_changed_and_new_resources at hrun
  rw [hbeq] at hrun
  simp only [Bool.false_eq_true, if_false, hlatest] at hrun
  injection hrun with hc
  subst hc
  set previous := TransUpdate.read_previous_hashinfo store cksum_folder git_branch reponame
    suffix with hprevdef
  constructor
  · exact (sortByKey_pairwise (fun s => s) _).imp (fun hab => (strLe_iff_le _ _).mp hab)
  · rw [mem_sortByKey, List.mem_map]
    constructor
    · rintro ⟨⟨k1, k2⟩, hkh, rfl⟩
      rw [List.mem_filter] at hkh
      obtain ⟨hmem, hpred⟩ := hkh
      have hlk : latest.lookup k1 = some k2 :=
        lookup_eq_some_of_mem (compute_nodup hlatest) hmem
      refine ⟨by rw [hlk]; rfl, ?_⟩
      unfold TransUpdate.changedPred at hpred
      show List.lookup k1 previous ≠ List.lookup k1 latest
      cases hprev : previous.lookup k1 with
      | none =>
        rw [hlk]
        intro hcontra
        cases hcontra
      | some ph =>
        rw [hprev] at hpred
        dsimp only at hpred
        rw [hlk]
        intro hcontra
        injection hcontra with hco
        rw [hco] at hpred
        simp at hpred
    · rintro ⟨hsome, hneq⟩
      cases hlk : latest.lookup r with
      | none => rw [hlk] at hsome; cases hsome
      | some h0 =>
        refine ⟨(r, h0), ?_, rfl⟩
        rw [List.mem_filter]
        refine ⟨mem_of_lookup_eq_some hlk, ?_⟩
        unfold TransUpdate.changedPred
        cases hprev : previous.lookup r with
        | none => rfl
        | some ph =>
          rw [hlk, hprev] at hneq
          have hph : ph ≠ h0 := by
            intro hcc
            exact hneq (by rw [hcc])
          simp only [Bool.not_eq_true']
          exact beq_eq_false_iff_ne.mpr (fun hcc => hph hcc.symm)

/-- C4 witness: the detector on one file, hashed but absent from the (empty)
previous snapshot, reports exactly that file. -/
theorem c4_change_detector_witness :
    ("ck" : String) ≠ ""
    ∧ TransUpdate.compute_current_hashinfo md5c fsys4 "/r" ["/r/a.po"]
        = Except.ok [("a.po", "h")]
    ∧ TransUpdate.get_changed_and_new_resources md5c fsys4 emptyStore "ck" "main" "repo" "/r"
        ["/r/a.po"] "" = Except.ok ["a.po"]
    ∧ (["a.po"] : List String).Pairwise (· ≤ ·)
    ∧ ("a.po" ∈ (["a.po"] : List String)
        ↔ ((([("a.po", "h")] : List (String × String)).lookup "a.po").isSome = true
          ∧ (TransUpdate.read_previous_hashinfo emptyStore "ck" "main" "repo" "").lookup "a.po"
            ≠ ([("a.po", "h")] : List (String × String)).lookup "a.po")) :=
  ⟨by decide, by decide, by decide,
   (c4_change_detector md5c fsys4 emptyStore "ck" "main" "repo" "/r" ["/r/a.po"] ""
     [("a.po", "h")] ["a.po"] "a.po" (by decide) (by decide) (by decide)).1,
   (c4_change_detector md5c fsys4 emptyStore "ck" "main" "repo" "/r" ["/r/a.po"] ""
     [("a.po", "h")] ["a.po"] "a.po" (by decide) (by decide) (by decide)).2⟩

/-- C9: the pull flow returns the distinguished no-changes exit value
exactly when the change detector reports zero changed-or-new entries after
the downloads, and the generic success exit value when at least one entry is
changed or new. -/
theorem c9_pull_exit (md5 : List Nat → String) (fsys : Fsys) (store : Store)
    (project_exists : Bool) (spec : ResSpec)
    (clonepath reponame cksum_folder git_branch download_path : String)
    (file_list res_list lang_list : List String) (changed : List String) (v : Nat) (st : Store)
    (hget : ResourceInfo.get spec clonepath fsys false = some (file_list, res_list, lang_list))
    (hchanged : TransUpdate.get_changed_and_new_resources md5 fsys store cksum_folder git_branch
      reponame download_path file_list "" = Except.ok changed)
    (hrun : TransUpdate.process_translated_files md5 fsys store project_exists spec clonepath
      reponame cksum_folder git_branch download_path = Except.ok (v, st)) :
    (v = EXIT_OK_NOCHANGES ↔ changed = []) ∧ (changed ≠ [] → v = EXIT_OK) := by
  unfold TransUpdate.process_translated_files at hrun
  rw [hget] at hrun
  cases project_exists with
  | false => simp at hrun
  | true =>
    simp only [if_true] at hrun
    rw [hchanged] at hrun
    dsimp only at hrun
    injection hrun with hpair
    injection hpair with hv _
    cases changed with
    | nil =>
      refine ⟨?_, fun hne => absurd rfl hne⟩
      simp only [List.length_nil] at hv
      constructor
      · intro _
        rfl
      · intro _
        exact hv.symm
    | cons a t =>
      simp only [List.length_cons] at hv
      have hv0 : v = EXIT_OK := by
        rw [← hv]
        simp [EXIT_OK]
      refine ⟨?_, fun _ => hv0⟩
      constructor
      · intro hcontra
        rw [hv0] at hcontra
        exact absurd hcontra (by decide)
      · intro hcontra
        cases hcontra

/-- C9 witness: a pull over an empty resource spec downloads nothing, the
detector reports zero entries, and the flow returns 100, with the store only
read. -/
theorem c9_pull_exit_witness :
    ResourceInfo.get specEmpty "/r" fsysEmpty false = some ([], [], [])
    ∧ TransUpdate.get_changed_and_new_resources md5c fsysEmpty emptyStore "ck" "main" "repo"
        "/r" [] "" = Except.ok []
    ∧ TransUpdate.process_translated_files md5c fsysEmpty emptyStore true specEmpty "/r" "repo"
        "ck" "main" "/r" = Except.ok (EXIT_OK_NOCHANGES, emptyStore)
    ∧ (EXIT_OK_NOCHANGES = EXIT_OK_NOCHANGES ↔ ([] : List String) = [])
    ∧ (([] : List String) ≠ [] → EXIT_OK_NOCHANGES = EXIT_OK) :=
  ⟨by decide, by decide, rfl,
   (c9_pull_exit md5c fsysEmpty emptyStore true specEmpty "/r" "repo" "ck" "main" "/r"
     [] [] [] [] EXIT_OK_NOCHANGES emptyStore (by decide) (by decide) rfl).1,
   (c9_pull_exit md5c fsysEmpty emptyStore true specEmpty "/r" "repo" "ck" "main" "/r"
     [] [] [] [] EXIT_OK_NOCHANGES emptyStore (by decide) (by decide) rfl).2⟩

/-- C8: writing a snapshot (the path-to-hash mapping serialized with sorted
keys to the `{branch}_{repo}[_{suffix}].json` file) and then reading the
snapshot back for the same branch, repo and suffix yields a mapping with the
same value for every key as the mapping written. -/
theorem c8_snapshot_roundtrip (md5 : List Nat → String) (fsys : Fsys) (store : Store)
    (spec : ResSpec) (src reponame cksum_folder git_branch download_path suffix : String)
    (english_mode : Bool) (file_list res_list lang_list : List String)
    (latest : List (String × String)) (v : Nat) (st : Store) (k : String)
    (hget : ResourceInfo.get spec src fsys english_mode = some (file_list, res_list, lang_list))
    (hlatest : TransUpdate.compute_current_hashinfo md5 fsys download_path file_list
      = Except.ok latest)
    (hwrite : TransUpdate.write_cksumfile md5 fsys store spec src reponame cksum_folder
      git_branch download_path suffix english_mode = Except.ok (v, st)) :
    v = EXIT_OK
    ∧ (TransUpdate.read_previous_hashinfo st cksum_folder git_branch reponame suffix).lookup k
        = latest.lookup k := by
  unfold TransUpdate.write_cksumfile at hwrite
  rw [hget] at hwrite
  dsimp only at hwrite
  rw [hlatest] at hwrite
  dsimp only at hwrite
  injection hwrite with hpair
  injection hpair with hv hst
  refine ⟨hv.symm, ?_⟩
  rw [← hst]
  unfold TransUpdate.read_previous_hashinfo
  dsimp only
  rw [if_pos rfl]
  exact lookup_sortByKey (compute_nodup hlatest)

/-- C8 witness: write-then-read round trip over the one-file snapshot of
`fsysT`. -/
theorem c8_snapshot_roundtrip_witness :
    ResourceInfo.get specT "/r" fsysT true = some (["/r/d/en/f.po"], [], [])
    ∧ TransUpdate.compute_current_hashinfo md5c fsysT "/r" ["/r/d/en/f.po"]
        = Except.ok [("d/en/f.po", "h")]
    ∧ TransUpdate.write_cksumfile md5c fsysT emptyStore specT "/r" "repo" "ck" "main" "/r"
        "english" true = Except.ok (EXIT_OK, storeW8)
    ∧ (TransUpdate.read_previous_hashinfo storeW8 "ck" "main" "repo" "english").lookup
        "d/en/f.po" = ([("d/en/f.po", "h")] : List (String × String)).lookup "d/en/f.po" :=
  ⟨by decide, by decide, rfl,
   (c8_snapshot_roundtrip md5c fsysT emptyStore specT "/r" "repo" "ck" "main" "/r" "english"
     true ["/r/d/en/f.po"] [] [] [("d/en/f.po", "h")] EXIT_OK storeW8 "d/en/f.po"
     (by decide) (by decide) rfl).2⟩

theorem getRule_eq_ruleUnits (exclude : List String) (langs : List LangEntry) (src : String)
    (fsys : Fsys) (item : ResRule) :
    ResourceInfo.getRule exclude langs src fsys false item
      = (ResourceInfo.ruleUnits exclude langs src fsys item).map
          (fun us => (us.map (fun u => u.1), us.map (fun u => u.2.1),
            us.map (fun u => u.2.2))) := by
  unfold ResourceInfo.getRule ResourceInfo.ruleUnits
  by_cases h : ResourceInfo.templated_dispatch item.pattern = true
  · rw [if_pos h, if_pos h]
    simp only [Bool.false_eq_true, if_false, Option.map_some', List.map_map]
    rfl
  · rw [if_neg h, if_neg h]
    cases hge : ResourceInfo.get_english_files exclude fsys
        (ResourceInfo.wild_filespec src item) item.sep with
    | none => rfl
    | some efs =>
      simp only [Bool.false_eq_true, if_false, Option.map_some', List.map_flatMap,
        List.map_map]
      rfl

theorem getList_eq_specUnits (exclude : List String) (langs : List LangEntry) (src : String)
    (fsys : Fsys) : ∀ rules : List ResRule,
    ResourceInfo.getList exclude langs src fsys false rules
      = (ResourceInfo.specUnits exclude langs src fsys rules).map
          (fun us => (us.map (fun u => u.1), us.map (fun u => u.2.1),
            us.map (fun u => u.2.2)))
  | [] => rfl
  | item :: rest => by
    unfold ResourceInfo.getList ResourceInfo.specUnits
    rw [getRule_eq_ruleUnits, getList_eq_specUnits exclude langs src fsys rest]
    cases ResourceInfo.ruleUnits exclude langs src fsys item with
    | none => rfl
    | some u1 =>
      cases ResourceInfo.specUnits exclude langs src fsys rest with
      | none => rfl
      | some u2 => simp

/-- C10: translation-mode resolution equals the projection of a single list
of (path, resource-name, language-code) units, so the three returned
sequences are the three components of the same unit at every index and have
equal lengths. -/
theorem c10_triple_alignment (spec : ResSpec) (src : String) (fsys : Fsys) :
    ResourceInfo.get spec src fsys false
      = (ResourceInfo.specUnits (ResourceInfo.langExclude spec) spec.langs src fsys
          spec.resources).map
          (fun us => (us.map (fun u => u.1), us.map (fun u => u.2.1),
            us.map (fun u => u.2.2)))
    ∧ ∀ file_list res_list lang_list,
        ResourceInfo.get spec src fsys false = some (file_list, res_list, lang_list) →
        file_list.length = res_list.length ∧ res_list.length = lang_list.length := by
  have heq := getList_eq_specUnits (ResourceInfo.langExclude spec) spec.langs src fsys
    spec.resources
  refine ⟨heq, ?_⟩
  intro file_list res_list lang_list hget
  rw [ResourceInfo.get] at hget
  rw [heq] at hget
  cases hsu : ResourceInfo.specUnits (ResourceInfo.langExclude spec) spec.langs src fsys
      spec.resources with
  | none => rw [hsu] at hget; cases hget
  | some us =>
    rw [hsu] at hget
    dsimp only [Option.map] at hget
    injection hget with htr
    injection htr with h1 htr2
    injection htr2 with h2 h3
    rw [← h1, ← h2, ← h3]
    simp

/-- C10 witness: the alignment theorem applied to the concrete wildcard
scenario, whose three translation-mode sequences have length one each. -/
theorem c10_triple_alignment_witness :
    ResourceInfo.get specC5 "/repo" fsysC5 false
        = some (["/repo/proj/a_fr.po"], ["a.po"], ["fr"])
    ∧ (["/repo/proj/a_fr.po"] : List String).length = (["a.po"] : List String).length
    ∧ (["a.po"] : List String).length = (["fr"] : List String).length :=
  ⟨by decide,
   (c10_triple_alignment specC5 "/repo" fsysC5).2 ["/repo/proj/a_fr.po"] ["a.po"] ["fr"]
     (by decide)⟩

/-- C1 (amended): a snapshot is written exactly by a hash-compare push whose
filtered upload list is non-empty — in that case the flow ends by the fresh
English-mode `write_cksumfile` — while a hash-compare push with an empty
filtered list, an explicit-file-list push, and the pull flow all leave the
checksum store untouched. -/
theorem c1_snapshot_write_amended (md5 : List Nat → String) (fsys : Fsys) (store : Store)
    (project_exists : Bool) (spec : ResSpec) (clonepath reponame filelist : String)
    (cksum_folder git_branch download_path : String) :
    (∀ v st, TransUpdate.upload_source_files md5 fsys store project_exists spec clonepath
        reponame filelist false cksum_folder git_branch download_path = Except.ok (v, st) →
        st = store)
    ∧ (∀ v st, TransUpdate.process_translated_files md5 fsys store project_exists spec
        clonepath reponame cksum_folder git_branch download_path = Except.ok (v, st) →
        st = store)
    ∧ (∀ res_files, project_exists = true →
        TransUpdate.get_filtered_upload_list_by_cksum_compare md5 fsys store spec clonepath
          reponame cksum_folder git_branch download_path "english" = Except.ok res_files →
        res_files ≠ [] →
        TransUpdate.uploadLoop res_files = Except.ok () →
        TransUpdate.upload_source_files md5 fsys store project_exists spec clonepath reponame
          filelist true cksum_folder git_branch download_path
          = TransUpdate.write_cksumfile md5 fsys store spec clonepath reponame cksum_folder
              git_branch download_path "english" true)
    ∧ (project_exists = true →
        TransUpdate.get_filtered_upload_list_by_cksum_compare md5 fsys store spec clonepath
          reponame cksum_folder git_branch download_path "english" = Except.ok [] →
        TransUpdate.upload_source_files md5 fsys store project_exists spec clonepath reponame
          filelist true cksum_folder git_branch download_path
          = Except.ok (EXIT_OK, store)) := by
  refine ⟨?_, ?_, ?_, ?_⟩
  · intro v st h
    unfold TransUpdate.upload_source_files at h
    cases project_exists with
    | false => simp at h
    | true =>
      rw [if_pos rfl] at h
      rw [if_neg (by decide)] at h
      cases hfl : TransUpdate.get_filtered_upload_list fsys spec clonepath filelist with
      | error e => rw [hfl] at h; simp at h
      | ok res_files =>
        rw [hfl] at h
        dsimp only at h
        cases hul : TransUpdate.uploadLoop res_files with
        | error e => rw [hul] at h; simp at h
        | ok u =>
          rw [hul] at h
          dsimp only at h
          rw [if_neg (by simp)] at h
          injection h with hpair
          injection hpair with _ hst
          exact hst.symm
  · intro v st h
    unfold TransUpdate.process_translated_files at h
    cases hget : ResourceInfo.get spec clonepath fsys false with
    | none => rw [hget] at h; simp at h
    | some trip =>
      obtain ⟨fl, rl, ll⟩ := trip
      rw [hget] at h
      dsimp only at h
      cases project_exists with
      | false => simp at h
      | true =>
        rw [if_pos rfl] at h
        cases hch : TransUpdate.get_changed_and_new_resources md5 fsys store cksum_folder
            git_branch reponame download_path fl "" with
        | error e => rw [hch] at h; simp at h
        | ok changed =>
          rw [hch] at h
          dsimp only at h
          injection h with hpair
          injection hpair with _ hst
          exact hst.symm
  · intro res_files hpe hfl hne hul
    subst hpe
    unfold TransUpdate.upload_source_files
    rw [if_pos rfl]
    rw [if_pos rfl]
    rw [hfl]
    dsimp only
    rw [hul]
    dsimp only
    have hlen : 0 < res_files.length := List.length_pos.mpr hne
    have hcond : (true && decide (0 < res_files.length)) = true := by simp [hlen]
    rw [if_pos hcond]
  · intro hpe hfl
    subst hpe
    unfold TransUpdate.upload_source_files
    rw [if_pos rfl]
    rw [if_pos rfl]
    rw [hfl]
    dsimp only
    rw [if_neg (by decide)]
    rfl

/-- C1 counterexample: a hash-compare push over a spec with no resources
completes successfully (exit 0), yet no snapshot is written — the checksum
store still has nothing at the snapshot path — contradicting the claim that
every successful hash-compare push persists a fresh snapshot. -/
theorem c1_snapshot_write_counterexample :
    TransUpdate.upload_source_files md5c fsysEmpty emptyStore true specEmpty "/r" "repo"
        "unused" true "ck" "main" "/r" = Except.ok (EXIT_OK, emptyStore)
    ∧ emptyStore (TransUpdate.get_hash_filename "ck" "main" "repo" "english") = none :=
  ⟨rfl, rfl⟩

/-- C1 witness: the amended theorem applied to a hash-compare push with one
changed file, which ends in the English-mode snapshot write. -/
theorem c1_snapshot_write_amended_witness :
    TransUpdate.get_filtered_upload_list_by_cksum_compare md5c fsysT emptyStore specT "/r"
        "repo" "ck" "main" "/r" "english" = Except.ok ["/r/d/en/f.po"]
    ∧ (["/r/d/en/f.po"] : List String) ≠ []
    ∧ TransUpdate.uploadLoop ["/r/d/en/f.po"] = Except.ok ()
    ∧ TransUpdate.upload_source_files md5c fsysT emptyStore true specT "/r" "repo" "unused"
        true "ck" "main" "/r"
      = TransUpdate.write_cksumfile md5c fsysT emptyStore specT "/r" "repo" "ck" "main" "/r"
          "english" true :=
  ⟨by decide, by decide, by decide,
   (c1_snapshot_write_amended md5c fsysT emptyStore true specT "/r" "repo" "unused" "ck"
     "main" "/r").2.2.1 ["/r/d/en/f.po"] rfl (by decide) (by decide) (by decide)⟩
